import Mathlib

/-
Verification of the CYK traversal code generator of gapc (src/cyk.cc) and of
the outside-grammar empty-word check (src/outside/grammar_transformation.cc).

The generator builds a tree of target-code statements (loops, declarations,
calls, raw directives).  We embed that statement language shallowly: the
statement/expression constructors below mirror the Statement/Expr node kinds
the generator actually creates, and each generator function of the C++
source is translated into a pure Lean function over these trees.  A small
interpreter gives the generated loop nests a semantics (needed to state the
coverage and end-state properties).
-/

set_option maxHeartbeats 1000000

/-- Types attached to generated variable declarations (Type::Size, Type::Int,
Type::External, Type::RealVoid in the source). -/
inductive Ty where
  | size
  | int
  | external (s : String)
  | realVoid
deriving DecidableEq

/-- Target-code expressions: exactly the Expr constructors built by
src/cyk.cc (Const, Vacc, the `size()` method call on an input sequence,
Plus, Minus, Times, Div, Cond, Less, Greater, Not, Or). -/
inductive CExpr where
  | const (n : Int)
  | vacc (name : String)
  | sizeCall (obj : String)
  | plus (a b : CExpr)
  | minus (a b : CExpr)
  | times (a b : CExpr)
  | div (a b : CExpr)
  | cond (c a b : CExpr)
  | lt (a b : CExpr)
  | gt (a b : CExpr)
  | not (e : CExpr)
  | or (a b : CExpr)
deriving DecidableEq

mutual
/-- Target-code statements, mirroring the Statement nodes built by the
generator.  A for-loop increment is always either absent (printed as `++v`)
or a single Var_Assign, so it is modelled as an optional
(lhs, is-plus-assign, rhs) triple. -/
inductive Stmt where
  | varDecl (t : Ty) (name : String) (rhs : CExpr)
  | varAssign (lhs : String) (isPlus : Bool) (rhs : CExpr)
  | fnCall (name : String) (args : List CExpr) (isObj : Bool)
  | customCode (code : String)
  | blockStmt (body : Stmts)
  | forLoop (t : Ty) (v : String) (start : CExpr) (cond : CExpr)
      (inc : Option (String × Bool × CExpr)) (body : Stmts)

/-- Statement sequences (std::list<Statement::Base*> in the source). -/
inductive Stmts where
  | nil
  | cons (s : Stmt) (rest : Stmts)
end

/-- Appends two statement sequences. -/
def Stmts.append : Stmts → Stmts → Stmts
  | .nil, l => l
  | .cons s r, l => .cons s (Stmts.append r l)

instance : Append Stmts := ⟨Stmts.append⟩

/-- Converts a Lean list of statements to a statement sequence. -/
def Stmts.ofList : List Stmt → Stmts
  | [] => .nil
  | s :: r => .cons s (Stmts.ofList r)

/-- Length of a statement sequence. -/
def Stmts.length : Stmts → Nat
  | .nil => 0
  | .cons _ r => Stmts.length r + 1

/-- Pushes statements at the end of a for-loop body
(`loop->statements.insert(loop->statements.end(), ...)` in the source);
identity on non-loop statements. -/
def appendBody : Stmt → Stmts → Stmt
  | .forLoop t v s c i body, extra => .forLoop t v s c i (body ++ extra)
  | s, _ => s

/-- Name of the variable declared by a declaration / bound by a loop. -/
def declName : Stmt → String
  | .varDecl _ n _ => n
  | .forLoop _ v _ _ _ _ => v
  | _ => ""

/-- Right-hand side of a variable declaration. -/
def declRhs : Stmt → CExpr
  | .varDecl _ _ rhs => rhs
  | _ => .const 0

/-- Start expression of a for-loop. -/
def startOf : Stmt → CExpr
  | .forLoop _ _ s _ _ _ => s
  | _ => .const 0

/-- Body of a for-loop or block. -/
def bodyOf : Stmt → Stmts
  | .forLoop _ _ _ _ _ b => b
  | .blockStmt b => b
  | _ => .nil

/-- Element of a statement sequence at an index (first element is 0). -/
def atIdx : Stmts → Nat → Stmt
  | .nil, _ => .customCode ""
  | .cons s _, 0 => s
  | .cons _ r, n + 1 => atIdx r n

/-- Boolean string-prefix test (`name.find(pre, 0) == 0` in the source),
computed over the character lists so that it evaluates by `decide`. -/
def strHasPre (pre s : String) : Bool :=
  s.data.take pre.data.length == pre.data

/-- Generation modes of the traversal builder (enum CYKmode). -/
inductive CYKmode where
  | SINGLETHREAD
  | OPENMP_PARALLEL
  | OPENMP_SERIAL
  | SINGLETHREAD_OUTSIDE
deriving DecidableEq

/-- Bundle of a constructed for-loop and the companion declaration holding
the index the loop did not reach (class CYKloop). -/
structure CYKloop where
  loop : Stmt
  endState : Stmt

/-- Statement `lock_shared(mutex)` (function mutex_lock). -/
def mutex_lock : Stmt := .fnCall "lock_shared" [.vacc "mutex"] true

/-- Statement `unlock_shared(mutex)` (function mutex_unlock). -/
def mutex_unlock : Stmt := .fnCall "unlock_shared" [.vacc "mutex"] true

/-- Column loop builder (function get_for_column): ascending loop
`for (rb = start; rb < end; ++rb)`; with checkpointing (outside the
OpenMP-parallel mode) the start becomes the conditional over the one-shot
loaded flag, and the end-state companion re-declares the variable with the
loop's end expression. -/
def get_for_column (running_boundary : String) (start end_ : CExpr)
    (with_checkpoint : Bool) (mode : CYKmode) : CYKloop :=
  let chk := with_checkpoint ∧ mode ≠ CYKmode.OPENMP_PARALLEL
  let t : Ty := if chk then .external "" else .size
  let start' : CExpr :=
    if chk then
      .cond (.vacc (running_boundary ++ "_loaded++")) start (.vacc running_boundary)
    else start
  let cond : CExpr := .lt (.vacc running_boundary) end_
  { loop := .forLoop t running_boundary start' cond none .nil,
    endState := .varDecl t running_boundary end_ }

/-- Row loop builder (function get_for_row): descending loop
`for (rb = start; rb > end; rb += -1)` (ascending with a `<` condition and
default increment in outside mode); the end-state companion re-declares the
variable with the constant 1, whatever `end` is. -/
def get_for_row (running_boundary : String) (start end_ : CExpr)
    (with_checkpoint : Bool) (mode : CYKmode) : CYKloop :=
  let t0 : Ty := if mode = CYKmode.OPENMP_PARALLEL then .int else .size
  let chk := with_checkpoint ∧ mode ≠ CYKmode.OPENMP_PARALLEL
  let t : Ty := if chk then .external "" else t0
  let start' : CExpr :=
    if chk then
      .cond (.vacc (running_boundary ++ "_loaded++")) start (.vacc running_boundary)
    else start
  let cond : CExpr :=
    if mode = CYKmode.SINGLETHREAD_OUTSIDE then .lt (.vacc running_boundary) end_
    else .gt (.vacc running_boundary) end_
  let inc : Option (String × Bool × CExpr) :=
    if mode = CYKmode.SINGLETHREAD_OUTSIDE then none
    else some (running_boundary, true, .const (-1))
  { loop := .forLoop t running_boundary start' cond inc .nil,
    endState := .varDecl t running_boundary (.const 1) }

/-- Tile loop builder (function get_for_openMP):
`for (int lv = start; lv < end; lv += inc)`. -/
def get_for_openMP (loopvar : String) (start end_ : CExpr) (incVar : String) :
    Stmt :=
  .forLoop .int loopvar start (.lt (.vacc loopvar) end_)
    (some (loopvar, true, .vacc incVar)) .nil

/-- Per-(nonterminal, track) table flags (delete_left_index /
delete_right_index of the table dimension optimization). -/
structure NTTable where
  delete_left_index : Bool
  delete_right_index : Bool

/-- Nonterminal record as consumed by the generator: tabulation flag, track
count, per-track table flags and index-variable names, and the name of its
evaluation routine (last entry of code_list, `nt_tabulate_...`). -/
structure NT where
  is_tabulated : Bool
  tracks : Nat
  tables : List NTTable
  left_indices : List String
  right_indices : List String
  code_name : String

/-- The slice of the AST the traversal generator consumes. -/
structure ASTModel where
  axiom_tracks : Nat
  left_running_indices : List String
  right_running_indices : List String
  seq_names : List String
  checkpoint_cyk : Bool
  cyk_requested : Bool
  outside_generation : Bool
  topological_ord : List NT

/-- Single-track single-thread traversal (function
cyk_traversal_singlethread_singletrack): quadrant A (column loop over a row
loop), B (nested body at column scope), C (row loop after the column loop),
D (nested body after all loops), with end-state declarations after each
loop. -/
def cyk_traversal_singlethread_singletrack (track : Nat) (ast : ASTModel)
    (seq : String) (nested_stmts : Stmts) (with_checkpoint : Bool)
    (mode : CYKmode) : Stmts :=
  let lri := ast.left_running_indices.getD track ""
  let rri := ast.right_running_indices.getD track ""
  let row_start : CExpr := .plus (.vacc rri) (.const 1)
  let seqend : CExpr := .sizeCall seq
  let row := get_for_row lri row_start (.const 1) with_checkpoint mode
  let rowLoop := appendBody row.loop nested_stmts
  let alt_start : CExpr :=
    if mode = CYKmode.OPENMP_SERIAL then .vacc "max_tiles_n" else .const 0
  let col := get_for_column rri alt_start seqend with_checkpoint mode
  let colLoop := appendBody col.loop (.cons rowLoop (.cons row.endState .nil))
  let colLoop := appendBody colLoop nested_stmts
  let rowC := get_for_row lri row_start (.const 1) with_checkpoint mode
  let rowCLoop := appendBody rowC.loop nested_stmts
  Stmts.cons colLoop (.cons col.endState
    (.cons rowCLoop (.cons rowC.endState .nil))) ++ nested_stmts

/-- Single-track outside traversal (function
cyk_traversal_singlethread_singletrack_outside): ascending row loop around
an ascending column loop. -/
def cyk_traversal_singlethread_singletrack_outside (track : Nat)
    (ast : ASTModel) (seq : String) (nested_stmts : Stmts)
    (with_checkpoint : Bool) (mode : CYKmode) : Stmts :=
  let lri := ast.left_running_indices.getD track ""
  let rri := ast.right_running_indices.getD track ""
  let seqend : CExpr := .sizeCall seq
  let col := get_for_column rri (.minus seqend (.vacc lri))
      (.plus seqend (.const 1)) with_checkpoint mode
  let colLoop := appendBody col.loop nested_stmts
  let row := get_for_row lri (.const 0) (.plus seqend (.const 1))
      with_checkpoint mode
  let rowLoop := appendBody row.loop (.cons colLoop .nil)
  Stmts.cons rowLoop .nil

/-- Multi-track composer (function cyk_traversal_singlethread): iterates the
tracks in reverse order, wrapping the accumulated statements into each
track's single-track structure. -/
def cyk_traversal_singlethread (ast : ASTModel) (mode : CYKmode) : Stmts :=
  (List.range ast.axiom_tracks).reverse.foldl
    (fun stmts track =>
      if mode = CYKmode.SINGLETHREAD_OUTSIDE then
        cyk_traversal_singlethread_singletrack_outside track ast
          (ast.seq_names.getD track "") stmts ast.checkpoint_cyk mode
      else
        cyk_traversal_singlethread_singletrack track ast
          (ast.seq_names.getD track "") stmts ast.checkpoint_cyk mode)
    .nil

/-- Tile-size computation (function get_tile_computation): declares
`tile_size` (default 32, overridable through the TILE_SIZE macro),
`max_tiles = input.size() / tile_size` and
`name_maxtilen = max_tiles * tile_size`; returns the statements together
with the tile_size declaration. -/
def get_tile_computation (ast : ASTModel) (name_maxtilen : String)
    (input_seq : String) (just_tilesize : Bool) : List Stmt × Stmt :=
  let tile_size : Stmt := .varDecl .size "tile_size" (.const 32)
  let hd : List Stmt :=
    if ¬ ast.checkpoint_cyk ∨ just_tilesize then
      [tile_size, .customCode "#ifdef TILE_SIZE",
       .varAssign "tile_size" false (.vacc "TILE_SIZE"),
       .customCode "#endif"]
    else []
  if just_tilesize then (hd, tile_size)
  else
    (hd ++
      [.fnCall "assert" [.vacc "tile_size"] false,
       .varDecl .size "max_tiles" (.div (.sizeCall input_seq) (.vacc "tile_size")),
       .varDecl .int name_maxtilen
         (.times (.vacc "max_tiles") (.vacc "tile_size"))],
     tile_size)

/-- Two-phase tiled traversal for the OpenMP path (function
cyk_traversal_multithread_parallel): phase A fills the boundary strips
(loop over z), phase B computes the diagonal tiles (work-shared loop over z
containing a loop over y with the tile-local column/row loops). -/
def cyk_traversal_multithread_parallel (ast : ASTModel) (_seq : String)
    (tile_size_name : String) (name_maxtilen : String)
    (with_checkpoint : Bool) : Stmts :=
  let lri := ast.left_running_indices.getD 0 ""
  let rri := ast.right_running_indices.getD 0 ""
  let row_start : CExpr := .plus (.vacc rri) (.const 1)
  let xDecl : Stmt := .varDecl .size "x"
    (.plus (.minus (.vacc "y") (.vacc "z")) (.vacc tile_size_name))
  let row := get_for_row lri row_start (.vacc "z") with_checkpoint
      .OPENMP_PARALLEL
  let col := get_for_column rri (.vacc "z")
      (.plus (.vacc "z") (.vacc tile_size_name)) with_checkpoint
      .OPENMP_PARALLEL
  let colLoop := appendBody col.loop (.cons row.loop .nil)
  let start_z : CExpr :=
    if with_checkpoint then .vacc "outer_loop_1_idx_start" else .const 0
  let blk_omp : Stmt := .blockStmt (Stmts.ofList
    [.customCode "wait for all threads to finish their current batch",
     .varAssign "outer_loop_1_idx" false (.plus start_z (.vacc tile_size_name)),
     mutex_unlock])
  let loop_z := appendBody
      (get_for_openMP "z" start_z (.vacc name_maxtilen) tile_size_name)
      ((if with_checkpoint then Stmts.ofList [mutex_lock] else .nil) ++
       Stmts.ofList [colLoop] ++
       (if with_checkpoint then
          Stmts.ofList [.customCode "#pragma omp ordered", blk_omp]
        else .nil))
  let rowB := get_for_row lri (.vacc "x")
      (.minus (.vacc "x") (.vacc tile_size_name)) with_checkpoint
      .OPENMP_PARALLEL
  let colB := get_for_column rri (.vacc "y")
      (.plus (.vacc "y") (.vacc tile_size_name)) with_checkpoint
      .OPENMP_PARALLEL
  let colBLoop := appendBody colB.loop (.cons rowB.loop .nil)
  let start_y : CExpr :=
    if with_checkpoint then
      .cond (.vacc "inner_loop_2_idx_loaded") (.vacc "z")
        (.vacc "inner_loop_2_idx_start")
    else .vacc "z"
  let blk_omp2 : Stmt := .blockStmt (Stmts.ofList
    [.varAssign "inner_loop_2_idx" false
       (.plus (.vacc "inner_loop_2_idx") (.vacc tile_size_name)),
     .varAssign "outer_loop_2_idx" false (.vacc "z"),
     mutex_unlock])
  let loop_y := appendBody
      (get_for_openMP "y" start_y (.vacc name_maxtilen) tile_size_name)
      ((if with_checkpoint then
          Stmts.ofList [.customCode "++inner_loop_2_idx_loaded;", mutex_lock]
        else .nil) ++
       Stmts.ofList [xDecl, colBLoop] ++
       (if with_checkpoint then
          Stmts.ofList [.customCode "#pragma omp ordered", blk_omp2]
        else .nil))
  let start_z2 : CExpr :=
    if with_checkpoint then .vacc "outer_loop_2_idx_start"
    else .vacc tile_size_name
  let loop_z2 := appendBody
      (get_for_openMP "z" start_z2 (.vacc name_maxtilen) tile_size_name)
      (Stmts.ofList
         [.customCode
            (if with_checkpoint then "#pragma omp for ordered schedule(dynamic)"
             else "#pragma omp for"),
          loop_y] ++
       (if with_checkpoint then
          Stmts.ofList [.varAssign "inner_loop_2_idx" false
            (.plus (.vacc "z") (.vacc tile_size_name))]
        else .nil))
  Stmts.cons loop_z (.cons loop_z2 .nil)

/-- Counts top-level `nt_tabulate_...` calls and nested for-loops of a loop
body (function count_nt_calls_and_loops). -/
def count_nt_calls_and_loops : Stmts → Nat
  | .nil => 0
  | .cons (.fnCall n _ _) r =>
      (if strHasPre "nt_tabulate_" n then 1 else 0) + count_nt_calls_and_loops r
  | .cons (.forLoop _ _ _ _ _ _) r => 1 + count_nt_calls_and_loops r
  | .cons _ r => count_nt_calls_and_loops r

/-- Accumulator of the per-nonterminal index walk of add_nt_calls: how many
of the nonterminal's live index variables are bound by the loop-variable
stack, how many live indices it has in total, and the argument expressions
(left indices decremented by one, right indices unchanged, eliminated
indices omitted). -/
structure NTIndexInfo where
  used : Nat
  has : Nat
  args : List CExpr

/-- Index walk of add_nt_calls over the tracks of one nonterminal. -/
def nt_indices_args (nt : NT) (loop_vars : List String) : NTIndexInfo :=
  (List.range nt.tracks).foldl
    (fun acc t =>
      let tbl := nt.tables.getD t ⟨false, false⟩
      let acc :=
        if ¬ tbl.delete_left_index then
          let idx := nt.left_indices.getD t ""
          { used := acc.used + (if idx ∈ loop_vars then 1 else 0),
            has := acc.has + 1,
            args := acc.args ++ [CExpr.minus (.vacc idx) (.const 1)] }
        else acc
      if ¬ tbl.delete_right_index then
        let idx := nt.right_indices.getD t ""
        { used := acc.used + (if idx ∈ loop_vars then 1 else 0),
          has := acc.has + 1,
          args := acc.args ++ [CExpr.vacc idx] }
      else acc)
    ⟨0, 0, []⟩

/-- The nonterminal-call statements emitted by add_nt_calls at one nesting
level: optional checkpoint locking, then for every tabulated nonterminal
whose bound live-index count equals the stack size, a call to its
evaluation routine. -/
def nt_stmts (loop_vars : List String) (orderedNTs : List NT)
    (with_checkpoint : Bool) (mode : CYKmode) : Stmts :=
  let pre : List Stmt :=
    if with_checkpoint then
      if mode = CYKmode.SINGLETHREAD then
        [.customCode "std::lock_guard<fair_mutex> lock(mutex);"]
      else if mode = CYKmode.OPENMP_SERIAL then [mutex_lock] else []
    else []
  let calls : List Stmt :=
    orderedNTs.filterMap (fun nt =>
      if ¬ nt.is_tabulated then none
      else
        let info := nt_indices_args nt loop_vars
        if info.used = loop_vars.length then
          some (Stmt.fnCall nt.code_name info.args false)
        else none)
  let post : List Stmt :=
    if with_checkpoint ∧ mode = CYKmode.OPENMP_SERIAL then [mutex_unlock]
    else []
  Stmts.ofList (pre ++ calls ++ post)

/-- Dead-loop elimination pass of add_nt_calls, with the iterator behaviour
of the source (`s = stmts.erase(s)` followed by `++s`): a loop whose body
holds neither an `nt_tabulate_` call nor a nested loop is removed, and the
element right after a removed loop is kept without being examined.  When a
loop is erased from the last position the source would increment the end
iterator; this never happens for the trees the generator builds, and the
model simply stops there. -/
def prune_skip : Stmts → Stmts
  | .nil => .nil
  | .cons (.forLoop t v st c i body) rest =>
      if count_nt_calls_and_loops body = 0 then
        match rest with
        | .nil => .nil
        | .cons r1 rrest => .cons r1 (prune_skip rrest)
      else .cons (.forLoop t v st c i body) (prune_skip rest)
  | .cons s rest => .cons s (prune_skip rest)

/-- True iff the sequence holds a for-loop at top level. -/
def anyFor : Stmts → Bool
  | .nil => false
  | .cons (.forLoop _ _ _ _ _ _) _ => true
  | .cons _ r => anyFor r

/-- Recursion pass of add_nt_calls over one statement sequence: each nested
for-loop gets the recursion applied to its body (extending the
loop-variable stack, except OpenMP bookkeeping variables not starting with
`t_` in parallel mode), then gets its body pruned and the nonterminal calls
of its level appended. -/
def ant : Stmts → List String → List NT → Bool → CYKmode → Stmts
  | .nil, _, _, _, _ => .nil
  | .cons (.forLoop t v st c i body) rest, lv, nts, chk, mode =>
      let next :=
        if ¬ (mode = CYKmode.OPENMP_PARALLEL) ∨ strHasPre "t_" v then lv ++ [v]
        else lv
      let body2 := prune_skip (ant body next nts chk mode)
      let news :=
        if mode = CYKmode.OPENMP_PARALLEL ∧ anyFor body then Stmts.nil
        else nt_stmts next nts chk mode
      Stmts.cons (.forLoop t v st c i (body2 ++ news))
        (ant rest lv nts chk mode)
  | .cons s rest, lv, nts, chk, mode => .cons s (ant rest lv nts chk mode)

/-- NT-call placement (function add_nt_calls): returns the transformed
statement sequence (recursion into the loops, then the pruning pass) and
the call statements the caller has to append at this level (empty in
parallel mode when a nested loop is present). -/
def add_nt_calls (stmts : Stmts) (loop_vars : List String)
    (orderedNTs : List NT) (with_checkpoint : Bool) (mode : CYKmode) :
    Stmts × Stmts :=
  (prune_skip (ant stmts loop_vars orderedNTs with_checkpoint mode),
   if mode = CYKmode.OPENMP_PARALLEL ∧ anyFor stmts then .nil
   else nt_stmts loop_vars orderedNTs with_checkpoint mode)

/-- Generated function definition (class Fn_Def; only name and body are
relevant here). -/
structure FnDef where
  name : String
  stmts : Stmts

/-- Checkpoint one-shot flag declarations print_CYK emits in front of the
single-thread variant. -/
def cykChkDecls (ast : ASTModel) : Stmts :=
  if ast.checkpoint_cyk then
    Stmts.ofList ((List.range ast.axiom_tracks).flatMap (fun track =>
      [Stmt.varDecl .int (ast.left_running_indices.getD track "" ++ "_loaded")
         (.or (.not (.vacc "load_checkpoint"))
              (.not (.vacc (ast.left_running_indices.getD track "")))),
       Stmt.varDecl .int (ast.right_running_indices.getD track "" ++ "_loaded")
         (.or (.not (.vacc "load_checkpoint"))
              (.not (.vacc (ast.right_running_indices.getD track ""))))]))
  else .nil

/-- Mode of the single-thread traversal emitted by print_CYK. -/
def cykStMode (ast : ASTModel) : CYKmode :=
  if ast.outside_generation then .SINGLETHREAD_OUTSIDE else .SINGLETHREAD

/-- The OpenMP branch of print_CYK (everything between the `#else` and the
`#endif` directive): empty unless the axiom has exactly one track. -/
def cykOpenMPBranch (ast : ASTModel) : Stmts :=
  if ast.axiom_tracks = 1 then
    let name_maxtilen := "max_tiles_n"
    let seq := ast.seq_names.getD (ast.axiom_tracks - 1) ""
    let header : Stmts :=
      if ast.checkpoint_cyk then
        Stmts.ofList ((get_tile_computation ast name_maxtilen seq true).1 ++
          [.customCode "int outer_loop_1_idx_loaded = !load_checkpoint || !outer_loop_1_idx;",
           .customCode "int outer_loop_2_idx_loaded = !load_checkpoint || !outer_loop_2_idx;",
           .customCode "int inner_loop_2_idx_loaded = !load_checkpoint || !inner_loop_2_idx;",
           .customCode "int outer_loop_1_idx_start = (outer_loop_1_idx_loaded++) ? 0 : outer_loop_1_idx;",
           .customCode "int outer_loop_2_idx_start = (outer_loop_2_idx_loaded++) ? tile_size : outer_loop_2_idx;",
           .customCode "int inner_loop_2_idx_start = inner_loop_2_idx;"])
      else .nil
    let tileComp := get_tile_computation ast name_maxtilen seq false
    let parStmts : Stmts :=
      let stmts := cyk_traversal_multithread_parallel ast seq
          (declName tileComp.2) name_maxtilen ast.checkpoint_cyk
      let r := add_nt_calls stmts [] ast.topological_ord ast.checkpoint_cyk
          .OPENMP_PARALLEL
      r.1 ++ r.2
    let blk_parallel : Stmt := .blockStmt (Stmts.ofList tileComp.1 ++
      Stmts.ofList
        [.customCode
           (if ast.checkpoint_cyk then "#pragma omp for ordered schedule(dynamic)"
            else "#pragma omp for"),
         .customCode "OPENMP < 3 requires signed int here"] ++
      parStmts ++ Stmts.ofList [.customCode "end parallel"])
    let serialStmts : Stmts :=
      let stmts := cyk_traversal_singlethread ast .OPENMP_SERIAL
      let r := add_nt_calls stmts [] ast.topological_ord ast.checkpoint_cyk
          .OPENMP_SERIAL
      r.1 ++ r.2
    header ++ Stmts.ofList [.customCode "#pragma omp parallel", blk_parallel] ++
      Stmts.ofList tileComp.1 ++ serialStmts
  else .nil

/-- Top-level generator (function print_CYK).  Note that in the source the
add_nt_calls application for the single-thread variant is commented out, so
the single-thread traversal is emitted without any nonterminal calls; only
the OpenMP parallel and serial variants receive calls. -/
def print_CYK (ast : ASTModel) : FnDef :=
  if ¬ ast.cyk_requested then { name := "cyk", stmts := .nil }
  else
    { name := "cyk",
      stmts :=
        cykChkDecls ast ++
        Stmts.ofList [.customCode "#ifndef _OPENMP"] ++
        cyk_traversal_singlethread ast (cykStMode ast) ++
        Stmts.ofList [.customCode "#else"] ++
        cykOpenMPBranch ast ++
        Stmts.ofList [.customCode "#endif"] }

/-- Number of `nt_tabulate_...` call statements anywhere in a statement
sequence, recursing into loops and blocks. -/
def countNtDeep : Stmts → Nat
  | .nil => 0
  | .cons s rest =>
      (match s with
       | .forLoop _ _ _ _ _ body => countNtDeep body
       | .blockStmt body => countNtDeep body
       | .fnCall n _ _ => if strHasPre "nt_tabulate_" n then 1 else 0
       | _ => 0) + countNtDeep rest

/-- Number of for-loop nodes anywhere in a statement sequence. -/
def countLoopsDeep : Stmts → Nat
  | .nil => 0
  | .cons s rest =>
      (match s with
       | .forLoop _ _ _ _ _ body => 1 + countLoopsDeep body
       | .blockStmt body => countLoopsDeep body
       | _ => 0) + countLoopsDeep rest

/-- True iff a call statement with the given name occurs at the top level of
the sequence. -/
def containsNtCallOf (name : String) : Stmts → Bool
  | .nil => false
  | .cons (.fnCall n _ _) r => n = name || containsNtCallOf name r
  | .cons _ r => containsNtCallOf name r

/-- Drops everything up to and including the first occurrence of the given
raw-code directive. -/
def dropThroughCustom (c : String) : Stmts → Stmts
  | .nil => .nil
  | .cons (.customCode d) rest =>
      if d = c then rest else dropThroughCustom c rest
  | .cons _ rest => dropThroughCustom c rest

/-- Takes everything up to (excluding) the first occurrence of the given
raw-code directive. -/
def takeUntilCustom (c : String) : Stmts → Stmts
  | .nil => .nil
  | .cons (.customCode d) rest =>
      if d = c then .nil else .cons (.customCode d) (takeUntilCustom c rest)
  | .cons s rest => .cons s (takeUntilCustom c rest)

/-- The single-thread section of a generated cyk function (between the
`#ifndef _OPENMP` and `#else` directives). -/
def stSegment (f : FnDef) : Stmts :=
  takeUntilCustom "#else" (dropThroughCustom "#ifndef _OPENMP" f.stmts)

/-- Evaluation context for generated code: the length of each named input
sequence (value of the `seq.size()` call). -/
structure EvalCtx where
  seqLen : String → Int

/-- Pointwise update of an environment. -/
def upd (env : String → Int) (v : String) (x : Int) : String → Int :=
  fun w => if w = v then x else env w

/-- Evaluation of generated expressions over an integer environment.
Comparisons and boolean connectives follow C semantics (nonzero = true);
division is the Lean integer division, which agrees with the C `size_t`
division on the nonnegative operands produced here. -/
def evalE (ctx : EvalCtx) (env : String → Int) : CExpr → Int
  | .const n => n
  | .vacc v => env v
  | .sizeCall s => ctx.seqLen s
  | .plus a b => evalE ctx env a + evalE ctx env b
  | .minus a b => evalE ctx env a - evalE ctx env b
  | .times a b => evalE ctx env a * evalE ctx env b
  | .div a b => evalE ctx env a / evalE ctx env b
  | .cond c a b => if evalE ctx env c ≠ 0 then evalE ctx env a else evalE ctx env b
  | .lt a b => if evalE ctx env a < evalE ctx env b then 1 else 0
  | .gt a b => if evalE ctx env b < evalE ctx env a then 1 else 0
  | .not e => if evalE ctx env e ≠ 0 then 0 else 1
  | .or a b => if evalE ctx env a ≠ 0 ∨ evalE ctx env b ≠ 0 then 1 else 0

/-- Execution state: the variable environment and the trace of coordinate
pairs recorded by `visit` markers. -/
structure St where
  env : String → Int
  visits : List (Int × Int)

/-- One loop increment: the default `++v` when no increment statement was
attached, otherwise the attached (plain or compound) assignment. -/
def applyInc (ctx : EvalCtx) (v : String)
    (inc : Option (String × Bool × CExpr)) (σ : St) : St :=
  match inc with
  | none => { σ with env := upd σ.env v (σ.env v + 1) }
  | some (l, isPlus, rhs) =>
      let x := (if isPlus then σ.env l else 0) + evalE ctx σ.env rhs
      { σ with env := upd σ.env l x }

/-- Argument of a call at a position (0 if absent). -/
def nthArg (args : List CExpr) (k : Nat) : CExpr := args.getD k (.const 0)

mutual
/-- Execution of a single generated statement.  A call named `visit` records
the evaluated pair of its first two arguments in the trace (the marker used
to observe which table cells a traversal reaches); every other call is a
no-op for this semantics.  Loop iteration is bounded by `fuel`; all results
below are stated with enough fuel for the loops to terminate by their
condition. -/
def execS (ctx : EvalCtx) (fuel : Nat) (σ : St) (s : Stmt) : St :=
  match s with
  | .varDecl _ v rhs => { σ with env := upd σ.env v (evalE ctx σ.env rhs) }
  | .varAssign v isPlus rhs =>
      let x := (if isPlus then σ.env v else 0) + evalE ctx σ.env rhs
      { σ with env := upd σ.env v x }
  | .fnCall n args _ =>
      if n = "visit" then
        { σ with visits := σ.visits ++
            [(evalE ctx σ.env (nthArg args 0), evalE ctx σ.env (nthArg args 1))] }
      else σ
  | .customCode _ => σ
  | .blockStmt body => execL ctx fuel σ body
  | .forLoop _ v start cond inc body =>
      execIter ctx fuel v cond inc body fuel
        { σ with env := upd σ.env v (evalE ctx σ.env start) }
termination_by (sizeOf s, 0)

/-- Execution of a statement sequence. -/
def execL (ctx : EvalCtx) (fuel : Nat) (σ : St) (l : Stmts) : St :=
  match l with
  | .nil => σ
  | .cons s rest => execL ctx fuel (execS ctx fuel σ s) rest
termination_by (sizeOf l, 0)

/-- Iteration of a for-loop: while the condition is nonzero, run the body
and the increment, up to `budget` rounds. -/
def execIter (ctx : EvalCtx) (fuel : Nat) (v : String) (cond : CExpr)
    (inc : Option (String × Bool × CExpr)) (body : Stmts) (budget : Nat)
    (σ : St) : St :=
  match budget with
  | 0 => σ
  | b + 1 =>
      if evalE ctx σ.env cond ≠ 0 then
        execIter ctx fuel v cond inc body b
          (applyInc ctx v inc (execL ctx fuel σ body))
      else σ
termination_by (sizeOf body, budget)
end

/-- Semantics of the checkpoint start expression `(v_loaded++) ? d : v`
built by get_for_column / get_for_row: reading the expression
post-increments the loaded flag; a nonzero flag selects the loop's natural
default start `d`, a zero flag (restore still pending) selects the restored
value `r` held in the loop variable.  Returns (selected value, new flag). -/
def readChkStart (d r flag : Int) : Int × Int :=
  (if flag ≠ 0 then d else r, flag + 1)

/-- Diagnostic levels of the logger. -/
inductive LogLevel where
  | warning
  | error
deriving DecidableEq

/-- The slice of the Grammar class consumed by
check_outside_parse_empty_word: grammar name, whether outside generation
was requested, and the minimal yield size of the axiom on each track. -/
structure GrammarModel where
  name : String
  outside_generation : Bool
  axiom_multi_ys_low : List Nat

/-- Warning message issued when a track's minimal yield size is positive
(quote characters of the original text elided). -/
def copew_msg (gname : String) (low : Nat) : String :=
  "The minimal yield size of your grammar " ++ gname ++ " is " ++
  toString low ++
  ", i.e. it cannot parse the empty input string. For outside grammar " ++
  "generation, this means you are lacking a recursion basis which will " ++
  "result in empty results for ALL outside candidates! Try adding an " ++
  "alternative like nil(EMPTY) to your axiom."

/-- Loop body of check_outside_parse_empty_word over the axiom's per-track
minimal yield sizes: the first positive one logs a warning and returns
false. -/
def copew_go (g : GrammarModel) : List Nat → Bool × List (LogLevel × String)
  | [] => (true, [])
  | low :: rest =>
      if 0 < low then (false, [(.warning, copew_msg g.name low)])
      else copew_go g rest

/-- Grammar::check_outside_parse_empty_word: vacuously true when outside
generation is not requested, otherwise scans the axiom's minimal yield
sizes. -/
def check_outside_parse_empty_word (g : GrammarModel) :
    Bool × List (LogLevel × String) :=
  if g.outside_generation then copew_go g g.axiom_multi_ys_low
  else (true, [])

@[simp] theorem Stmts.nil_append (l : Stmts) : Stmts.nil ++ l = l := rfl

@[simp] theorem Stmts.cons_append (s : Stmt) (r l : Stmts) :
    Stmts.cons s r ++ l = .cons s (r ++ l) := rfl

@[simp] theorem Stmts.append_nil : ∀ l : Stmts, l ++ Stmts.nil = l
  | .nil => rfl
  | .cons s r => by
      have := Stmts.append_nil r
      simp only [Stmts.cons_append, this]

@[simp] theorem Stmts.append_assoc : ∀ a b c : Stmts, a ++ b ++ c = a ++ (b ++ c)
  | .nil, _, _ => rfl
  | .cons s r, b, c => by
      have := Stmts.append_assoc r b c
      simp only [Stmts.cons_append, this]

@[simp] theorem Stmts.ofList_nil : Stmts.ofList [] = Stmts.nil := rfl

@[simp] theorem Stmts.ofList_cons (s : Stmt) (r : List Stmt) :
    Stmts.ofList (s :: r) = .cons s (Stmts.ofList r) := rfl

/-- Quadratic tabulated nonterminal on one track (both indices live). -/
def ntQuad : NT :=
  { is_tabulated := true, tracks := 1, tables := [⟨false, false⟩],
    left_indices := ["t_0_i"], right_indices := ["t_0_j"],
    code_name := "nt_tabulate_foo" }

/-- Linear tabulated nonterminal on one track: the left (row) index is
eliminated, only the right (column) index is live. -/
def ntLin : NT :=
  { is_tabulated := true, tracks := 1, tables := [⟨true, false⟩],
    left_indices := ["t_0_i"], right_indices := ["t_0_j"],
    code_name := "nt_tabulate_lin" }

/-- Single-track AST requesting CYK generation, no checkpointing, inside
mode, with one tabulated quadratic nonterminal. -/
def ast1 : ASTModel :=
  { axiom_tracks := 1, left_running_indices := ["t_0_i"],
    right_running_indices := ["t_0_j"], seq_names := ["t_0_seq"],
    checkpoint_cyk := false, cyk_requested := true,
    outside_generation := false, topological_ord := [ntQuad] }

/-- The same grammar slice in outside mode. -/
def ast1o : ASTModel := { ast1 with outside_generation := true }

/-- The same grammar slice with CYK generation not requested. -/
def astNoCyk : ASTModel := { ast1 with cyk_requested := false }

/-- Two-track AST requesting CYK generation. -/
def ast2 : ASTModel :=
  { axiom_tracks := 2, left_running_indices := ["t_0_i", "t_1_i"],
    right_running_indices := ["t_0_j", "t_1_j"],
    seq_names := ["t_0_seq", "t_1_seq"],
    checkpoint_cyk := false, cyk_requested := true,
    outside_generation := false, topological_ord := [] }

/-- One, two and three track ASTs with an empty nonterminal list. -/
def astE1 : ASTModel := { ast1 with topological_ord := [] }

def astE2 : ASTModel := ast2

def astE3 : ASTModel :=
  { axiom_tracks := 3, left_running_indices := ["t_0_i", "t_1_i", "t_2_i"],
    right_running_indices := ["t_0_j", "t_1_j", "t_2_j"],
    seq_names := ["t_0_seq", "t_1_seq", "t_2_seq"],
    checkpoint_cyk := false, cyk_requested := true,
    outside_generation := false, topological_ord := [] }

/-- C9: if CYK evaluation is not requested, print_CYK still returns a
function definition named "cyk" whose statement body is empty. -/
theorem print_CYK_no_cyk_requested (ast : ASTModel)
    (h : ast.cyk_requested = false) :
    (print_CYK ast).name = "cyk" ∧ (print_CYK ast).stmts = Stmts.nil := by
  simp [print_CYK, h]

theorem print_CYK_no_cyk_requested_witness :
    (print_CYK astNoCyk).name = "cyk" ∧ (print_CYK astNoCyk).stmts = Stmts.nil :=
  print_CYK_no_cyk_requested astNoCyk rfl

/-- C6: for a grammar whose axiom has more than one track, print_CYK
generates no tiled/parallel structure: the OpenMP branch between the
`#else` and `#endif` directives is empty, and the emitted function is
exactly the single-thread traversal (plus the surrounding directives). -/
theorem print_CYK_multitrack_singlethread_only (ast : ASTModel)
    (htr : 1 < ast.axiom_tracks) (hc : ast.cyk_requested = true) :
    cykOpenMPBranch ast = Stmts.nil ∧
    (print_CYK ast).stmts =
      cykChkDecls ast ++
      Stmts.cons (.customCode "#ifndef _OPENMP")
        (cyk_traversal_singlethread ast (cykStMode ast) ++
         Stmts.cons (.customCode "#else")
           (Stmts.cons (.customCode "#endif") .nil)) := by
  have h1 : ¬ ast.axiom_tracks = 1 := by omega
  have hb : cykOpenMPBranch ast = Stmts.nil := by
    simp [cykOpenMPBranch, h1]
  refine ⟨hb, ?_⟩
  simp [print_CYK, hc, hb]

theorem print_CYK_multitrack_singlethread_only_witness :
    cykOpenMPBranch ast2 = Stmts.nil ∧
    (print_CYK ast2).stmts =
      cykChkDecls ast2 ++
      Stmts.cons (.customCode "#ifndef _OPENMP")
        (cyk_traversal_singlethread ast2 (cykStMode ast2) ++
         Stmts.cons (.customCode "#else")
           (Stmts.cons (.customCode "#endif") .nil)) :=
  print_CYK_multitrack_singlethread_only ast2 (by decide) rfl

/-- C7: the tile computation declares tile_size with default value 32
(overridable through the TILE_SIZE macro), max_tiles as the floor quotient
of the input length by tile_size, and the max_tiles_n variable as
max_tiles * tile_size. -/
theorem get_tile_computation_spec (ast : ASTModel) (nm seq : String)
    (h : ast.checkpoint_cyk = false) :
    (get_tile_computation ast nm seq false).1 =
      [Stmt.varDecl .size "tile_size" (.const 32),
       .customCode "#ifdef TILE_SIZE",
       .varAssign "tile_size" false (.vacc "TILE_SIZE"),
       .customCode "#endif",
       .fnCall "assert" [.vacc "tile_size"] false,
       .varDecl .size "max_tiles" (.div (.sizeCall seq) (.vacc "tile_size")),
       .varDecl .int nm (.times (.vacc "max_tiles") (.vacc "tile_size"))] ∧
    (∀ (n t : Nat) (env : String → Int), env "tile_size" = (t : Int) →
      evalE ⟨fun _ => (n : Int)⟩ env (.div (.sizeCall seq) (.vacc "tile_size")) =
        ((n / t : Nat) : Int)) ∧
    (∀ (n t : Nat) (env : String → Int), env "tile_size" = (t : Int) →
      env "max_tiles" = ((n / t : Nat) : Int) →
      evalE ⟨fun _ => (n : Int)⟩ env
        (.times (.vacc "max_tiles") (.vacc "tile_size")) =
        ((n / t * t : Nat) : Int)) := by
  refine ⟨by simp [get_tile_computation, h], ?_, ?_⟩
  · intro n t env ht
    simp [evalE, ht]
  · intro n t env ht hm
    simp [evalE, ht, hm]

/-- Environment for the worked tile example: tile_size = 4, max_tiles = 3. -/
def env12 : String → Int :=
  fun v => if v = "tile_size" then 4 else if v = "max_tiles" then 3 else 0

theorem get_tile_computation_spec_witness :
    evalE ⟨fun _ => (12 : Int)⟩ env12
        (.div (.sizeCall "t_0_seq") (.vacc "tile_size")) =
      ((12 / 4 : Nat) : Int) ∧
    evalE ⟨fun _ => (12 : Int)⟩ env12
        (.times (.vacc "max_tiles") (.vacc "tile_size")) =
      ((12 / 4 * 4 : Nat) : Int) :=
  ⟨(get_tile_computation_spec ast1 "max_tiles_n" "t_0_seq" rfl).2.1 12 4 env12
     (by decide),
   (get_tile_computation_spec ast1 "max_tiles_n" "t_0_seq" rfl).2.2 12 4 env12
     (by decide) (by decide)⟩

/-- C3 counterexample: the checkpoint start expression built by
get_for_column is the conditional over the post-incremented loaded flag,
but with the flag initially 0 (restore pending) its FIRST read yields the
RESTORED value (here 5), not the loop's natural default start (here 0) as
the claim states; the default is only used from the second read on. -/
theorem checkpoint_start_counterexample :
    startOf (get_for_column "t_0_j" (.const 0) (.sizeCall "t_0_seq") true
        .SINGLETHREAD).loop =
      CExpr.cond (.vacc "t_0_j_loaded++") (.const 0) (.vacc "t_0_j") ∧
    (readChkStart 0 5 0).1 = 5 ∧ ¬ (readChkStart 0 5 0).1 = 0 ∧
    (readChkStart 0 5 (readChkStart 0 5 0).2).1 = 0 := by
  refine ⟨by decide, by decide, by decide, by decide⟩

/-- C3 (amended): with checkpointing enabled outside the parallel-interior
mode, each loop's start expression built by get_for_column / get_for_row is
the conditional over the loop variable's loaded flag, whose read also
post-increments the flag; the flag's first read while the flag is still 0
(restore pending) yields the restored value held in the loop variable, and
every read with a nonzero flag — in particular every read after the first —
yields the loop's natural default start. -/
theorem checkpoint_start_amended (rb : String) (start e : CExpr)
    (mode : CYKmode) (hm : mode ≠ CYKmode.OPENMP_PARALLEL) :
    startOf (get_for_column rb start e true mode).loop =
      .cond (.vacc (rb ++ "_loaded++")) start (.vacc rb) ∧
    startOf (get_for_row rb start e true mode).loop =
      .cond (.vacc (rb ++ "_loaded++")) start (.vacc rb) ∧
    (∀ d r : Int, (readChkStart d r 0).1 = r ∧ (readChkStart d r 0).2 = 1 ∧
      ∀ f : Int, f ≠ 0 →
        (readChkStart d r f).1 = d ∧ (readChkStart d r f).2 = f + 1) := by
  refine ⟨?_, ?_, ?_⟩
  · simp [get_for_column, startOf, hm]
  · simp [get_for_row, startOf, hm]
  · intro d r
    refine ⟨by simp [readChkStart], by simp [readChkStart], ?_⟩
    intro f hf
    simp [readChkStart, hf]

theorem checkpoint_start_amended_witness :
    startOf (get_for_column "t_0_j" (.const 0) (.const 7) true
        .SINGLETHREAD).loop =
      .cond (.vacc ("t_0_j" ++ "_loaded++")) (.const 0) (.vacc "t_0_j") ∧
    startOf (get_for_row "t_0_j" (.const 0) (.const 7) true
        .SINGLETHREAD).loop =
      .cond (.vacc ("t_0_j" ++ "_loaded++")) (.const 0) (.vacc "t_0_j") ∧
    (∀ d r : Int, (readChkStart d r 0).1 = r ∧ (readChkStart d r 0).2 = 1 ∧
      ∀ f : Int, f ≠ 0 →
        (readChkStart d r f).1 = d ∧ (readChkStart d r f).2 = f + 1) :=
  checkpoint_start_amended "t_0_j" (.const 0) (.const 7) .SINGLETHREAD
    (by decide)

/-- C4 counterexample: a tabulated nonterminal with one eliminated (left)
and one live (right) index on a single track DOES get a call at depth 0
(empty loop-variable stack): there used_indices = 0 = stack size, so
add_nt_calls emits the call after all loops (where the end-state
declarations provide the index values), refuting the claim's "never at
depth 0". -/
theorem nt_call_depth0_counterexample :
    nt_stmts [] [ntLin] false .SINGLETHREAD =
      Stmts.cons (.fnCall "nt_tabulate_lin" [.vacc "t_0_j"] false) .nil := by
  rfl

/-- C4 (amended): add_nt_calls emits the call of a tabulated nonterminal
exactly when the count of its non-eliminated index variables bound by the
loop-variable stack equals the stack's size, with eliminated indices
omitted, live left (row) indices passed decremented by one and right
(column) indices passed unchanged; hence a nonterminal with one eliminated
and one live index on a single track gets its call at depth 1 and also at
depth 0 (after the loops, from the end-state values), but never at
depth 2. -/
theorem nt_call_emission_amended :
    (∀ (lv : List String) (nt : NT) (mode : CYKmode),
      nt_stmts lv [nt] false mode =
        (if nt.is_tabulated = true ∧ (nt_indices_args nt lv).used = lv.length
         then Stmts.cons
            (.fnCall nt.code_name (nt_indices_args nt lv).args false) .nil
         else Stmts.nil)) ∧
    nt_stmts ["t_0_j"] [ntLin] false .SINGLETHREAD =
      Stmts.cons (.fnCall "nt_tabulate_lin" [.vacc "t_0_j"] false) .nil ∧
    nt_stmts ["t_0_j", "t_0_i"] [ntLin] false .SINGLETHREAD = Stmts.nil ∧
    nt_stmts ["t_0_j", "t_0_i"] [ntQuad] false .SINGLETHREAD =
      Stmts.cons (.fnCall "nt_tabulate_foo"
        [.minus (.vacc "t_0_i") (.const 1), .vacc "t_0_j"] false) .nil := by
  refine ⟨?_, rfl, rfl, rfl⟩
  intro lv nt mode
  by_cases h1 : nt.is_tabulated
  · by_cases h2 : (nt_indices_args nt lv).used = lv.length
    · simp [nt_stmts, h1, h2]
    · simp [nt_stmts, h1, h2]
  · simp [nt_stmts, h1]

/-- Dead for-loop over variable a. -/
def emptyLoopA : Stmt :=
  .forLoop .size "a" (.const 0) (.lt (.vacc "a") (.const 0)) none .nil

/-- Dead for-loop over variable b. -/
def emptyLoopB : Stmt :=
  .forLoop .size "b" (.const 0) (.lt (.vacc "b") (.const 0)) none .nil

/-- C5 counterexample: the pruning pass of add_nt_calls removes the first of
two adjacent dead loops, then skips the sibling right after the erased node
(the iterator is set to the next element and incremented again), so the
second dead loop survives — the pass neither examines every sibling
following a removed node nor removes every dead loop. -/
theorem prune_skip_counterexample :
    (add_nt_calls (.cons emptyLoopA (.cons emptyLoopB .nil)) [] [] false
        .SINGLETHREAD).1 = .cons emptyLoopB .nil ∧
    count_nt_calls_and_loops (bodyOf emptyLoopB) = 0 := by
  exact ⟨rfl, rfl⟩

/-- C5 (amended): the pruning pass removes a for-loop whose body holds
neither a tabulated-nonterminal call nor a nested loop, but skips the
sibling immediately after each removed loop; in the traversals the
generator builds, loops always alternate with end-state declarations, so
the skipped siblings are never loops and a traversal built over an empty
nonterminal list still collapses to zero loop nodes at every level (shown
here for one-, two- and three-track single-thread traversals, and for the
serial-closure mode). -/
theorem prune_empty_nt_collapse :
    countLoopsDeep
      ((add_nt_calls (cyk_traversal_singlethread astE1 .SINGLETHREAD) [] []
          false .SINGLETHREAD).1 ++
       (add_nt_calls (cyk_traversal_singlethread astE1 .SINGLETHREAD) [] []
          false .SINGLETHREAD).2) = 0 ∧
    countLoopsDeep
      ((add_nt_calls (cyk_traversal_singlethread astE2 .SINGLETHREAD) [] []
          false .SINGLETHREAD).1 ++
       (add_nt_calls (cyk_traversal_singlethread astE2 .SINGLETHREAD) [] []
          false .SINGLETHREAD).2) = 0 ∧
    countLoopsDeep
      ((add_nt_calls (cyk_traversal_singlethread astE3 .SINGLETHREAD) [] []
          false .SINGLETHREAD).1 ++
       (add_nt_calls (cyk_traversal_singlethread astE3 .SINGLETHREAD) [] []
          false .SINGLETHREAD).2) = 0 ∧
    countLoopsDeep
      ((add_nt_calls (cyk_traversal_singlethread astE1 .OPENMP_SERIAL) [] []
          false .OPENMP_SERIAL).1 ++
       (add_nt_calls (cyk_traversal_singlethread astE1 .OPENMP_SERIAL) [] []
          false .OPENMP_SERIAL).2) = 0 := by
  refine ⟨rfl, rfl, rfl, rfl⟩

/-- C1 (code defect): for a grammar with one tabulated nonterminal, the
single-thread section of the function returned by print_CYK (between the
`#ifndef _OPENMP` and `#else` directives) contains the loop structure but
not a single nonterminal evaluation call — the add_nt_calls application for
the single-thread variants is commented out in the source — while the
OpenMP branch of the very same function does receive calls.  The same holds
in outside mode. -/
theorem print_CYK_singlethread_missing_nt_calls :
    (ast1.topological_ord.any (fun nt => nt.is_tabulated)) = true ∧
    0 < countLoopsDeep (stSegment (print_CYK ast1)) ∧
    countNtDeep (stSegment (print_CYK ast1)) = 0 ∧
    0 < countNtDeep (dropThroughCustom "#else" (print_CYK ast1).stmts) ∧
    0 < countLoopsDeep (stSegment (print_CYK ast1o)) ∧
    countNtDeep (stSegment (print_CYK ast1o)) = 0 := by
  refine ⟨rfl, ?_, rfl, ?_, ?_, rfl⟩ <;> decide

/-- Helper for C10: behaviour of the scan over the axiom's per-track
minimal yield sizes. -/
theorem copew_go_spec (g : GrammarModel) (l : List Nat) :
    ((copew_go g l).1 = true ↔ ∀ low ∈ l, low = 0) ∧
    ((copew_go g l).1 = false →
      ∃ low ∈ l, 0 < low ∧
        (copew_go g l).2 = [(LogLevel.warning, copew_msg g.name low)]) := by
  induction l with
  | nil => simp [copew_go]
  | cons low rest ih =>
    by_cases h : 0 < low
    · constructor
      · simp [copew_go, h]
        omega
      · intro _
        exact ⟨low, by simp, h, by simp [copew_go, h]⟩
    · have hz : low = 0 := by omega
      constructor
      · simp [copew_go, h, hz]
        exact ih.1
      · intro hf
        have hf' : (copew_go g rest).1 = false := by
          simpa [copew_go, h] using hf
        obtain ⟨w, hw, hwpos, hlog⟩ := ih.2 hf'
        exact ⟨w, by simp [hw], hwpos, by simpa [copew_go, h] using hlog⟩

/-- C10: check_outside_parse_empty_word returns true iff outside generation
is not requested or the axiom's minimal yield size is zero on every track;
when it returns false it has logged exactly one warning (not an error)
saying the grammar cannot parse the empty input string. -/
theorem check_outside_parse_empty_word_spec (g : GrammarModel) :
    ((check_outside_parse_empty_word g).1 = true ↔
      (g.outside_generation = false ∨
        ∀ low ∈ g.axiom_multi_ys_low, low = 0)) ∧
    ((check_outside_parse_empty_word g).1 = false →
      ∃ low ∈ g.axiom_multi_ys_low, 0 < low ∧
        (check_outside_parse_empty_word g).2 =
          [(LogLevel.warning, copew_msg g.name low)]) := by
  by_cases ho : g.outside_generation
  · have h1 := copew_go_spec g g.axiom_multi_ys_low
    constructor
    · rw [check_outside_parse_empty_word]
      simp [ho]
      exact h1.1
    · intro hf
      have heq : check_outside_parse_empty_word g =
          copew_go g g.axiom_multi_ys_low := by
        simp [check_outside_parse_empty_word, ho]
      rw [heq] at hf ⊢
      exact h1.2 hf
  · simp [check_outside_parse_empty_word, ho]

/-- Grammar slice whose axiom has minimal yield size 1 on its only track. -/
def gPos : GrammarModel :=
  { name := "G", outside_generation := true, axiom_multi_ys_low := [1] }

theorem check_outside_parse_empty_word_spec_witness :
    ∃ low ∈ gPos.axiom_multi_ys_low, 0 < low ∧
      (check_outside_parse_empty_word gPos).2 =
        [(LogLevel.warning, copew_msg gPos.name low)] :=
  (check_outside_parse_empty_word_spec gPos).2 (by decide)

@[simp] theorem upd_same (f : String → Int) (v : String) (x : Int) :
    upd f v x v = x := by
  simp [upd]

theorem upd_ne (f : String → Int) {w v : String} (h : ¬ w = v) (x : Int) :
    upd f v x w = f w := by
  simp [upd, h]

theorem upd_upd_same (f : String → Int) (v : String) (a b : Int) :
    upd (upd f v a) v b = upd f v b := by
  funext w
  by_cases h : w = v <;> simp [upd, h]

theorem upd_self (f : String → Int) (v : String) :
    upd f v (f v) = f := by
  funext w
  by_cases h : w = v <;> simp [upd, h]

theorem upd_comm (f : String → Int) {v w : String} (h : ¬ v = w) (a b : Int) :
    upd (upd f v a) w b = upd (upd f w b) v a := by
  funext u
  by_cases h1 : u = w <;> by_cases h2 : u = v <;>
    simp_all [upd]

theorem execL_nil (ctx : EvalCtx) (fuel : Nat) (σ : St) :
    execL ctx fuel σ .nil = σ := by
  rw [execL.eq_def]

theorem execL_cons (ctx : EvalCtx) (fuel : Nat) (σ : St) (s : Stmt)
    (r : Stmts) :
    execL ctx fuel σ (.cons s r) = execL ctx fuel (execS ctx fuel σ s) r := by
  rw [execL.eq_def]

theorem execS_varDecl (ctx : EvalCtx) (fuel : Nat) (σ : St) (t : Ty)
    (v : String) (rhs : CExpr) :
    execS ctx fuel σ (.varDecl t v rhs) =
      { σ with env := upd σ.env v (evalE ctx σ.env rhs) } := by
  rw [execS.eq_def]

theorem execS_varAssign (ctx : EvalCtx) (fuel : Nat) (σ : St) (v : String)
    (isPlus : Bool) (rhs : CExpr) :
    execS ctx fuel σ (.varAssign v isPlus rhs) =
      { σ with env := upd σ.env v ((if isPlus then σ.env v else 0) + evalE ctx σ.env rhs) } := by
  rw [execS.eq_def]

theorem execS_fnCall (ctx : EvalCtx) (fuel : Nat) (σ : St) (n : String)
    (args : List CExpr) (isObj : Bool) :
    execS ctx fuel σ (.fnCall n args isObj) =
      (if n = "visit" then
        { σ with
            visits := σ.visits ++ [(evalE ctx σ.env (nthArg args 0), evalE ctx σ.env (nthArg args 1))] }
       else σ) := by
  rw [execS.eq_def]

theorem execS_customCode (ctx : EvalCtx) (fuel : Nat) (σ : St) (c : String) :
    execS ctx fuel σ (.customCode c) = σ := by
  rw [execS.eq_def]

theorem execS_blockStmt (ctx : EvalCtx) (fuel : Nat) (σ : St) (body : Stmts) :
    execS ctx fuel σ (.blockStmt body) = execL ctx fuel σ body := by
  rw [execS.eq_def]

theorem execS_forLoop (ctx : EvalCtx) (fuel : Nat) (σ : St) (t : Ty)
    (v : String) (start cond : CExpr) (inc : Option (String × Bool × CExpr))
    (body : Stmts) :
    execS ctx fuel σ (.forLoop t v start cond inc body) =
      execIter ctx fuel v cond inc body fuel
        { σ with env := upd σ.env v (evalE ctx σ.env start) } := by
  rw [execS.eq_def]

theorem execIter_zero (ctx : EvalCtx) (fuel : Nat) (v : String)
    (cond : CExpr) (inc : Option (String × Bool × CExpr)) (body : Stmts)
    (σ : St) :
    execIter ctx fuel v cond inc body 0 σ = σ := by
  rw [execIter.eq_def]

theorem execIter_succ (ctx : EvalCtx) (fuel : Nat) (v : String)
    (cond : CExpr) (inc : Option (String × Bool × CExpr)) (body : Stmts)
    (b : Nat) (σ : St) :
    execIter ctx fuel v cond inc body (b + 1) σ =
      (if evalE ctx σ.env cond ≠ 0 then
        execIter ctx fuel v cond inc body b
          (applyInc ctx v inc (execL ctx fuel σ body))
       else σ) := by
  rw [execIter.eq_def]

/-- Marker statement standing for the statements nested into a quadrant: it
records the cell the surrounding loops address, with the left index
decremented by one exactly as add_nt_calls passes it to a nonterminal
call. -/
def visitStmt : Stmt :=
  .fnCall "visit" [.minus (.vacc "t_0_i") (.const 1), .vacc "t_0_j"] false

/-- Row loop of the single-track single-thread traversal (quadrants A and
C), with the marker as body. -/
def rowLoopC2 : Stmt :=
  .forLoop .size "t_0_i" (.plus (.vacc "t_0_j") (.const 1))
    (.gt (.vacc "t_0_i") (.const 1)) (some ("t_0_i", true, .const (-1)))
    (.cons visitStmt .nil)

/-- End-state declaration of the row loops. -/
def rowEndC2 : Stmt := .varDecl .size "t_0_i" (.const 1)

/-- Body of the column loop: row loop, its end state, and the quadrant-B
marker. -/
def colBodyC2 : Stmts :=
  .cons rowLoopC2 (.cons rowEndC2 (.cons visitStmt .nil))

/-- Column loop of the single-track single-thread traversal. -/
def colLoopC2 : Stmt :=
  .forLoop .size "t_0_j" (.const 0)
    (.lt (.vacc "t_0_j") (.sizeCall "t_0_seq")) none colBodyC2

/-- End-state declaration of the column loop. -/
def colEndC2 : Stmt := .varDecl .size "t_0_j" (.sizeCall "t_0_seq")

/-- The traversal built by the quadrant builder for one track with the
marker as nested body. -/
def c2stmts : Stmts :=
  cyk_traversal_singlethread_singletrack 0 ast1 "t_0_seq"
    (.cons visitStmt .nil) false .SINGLETHREAD

theorem c2stmts_eq :
    c2stmts = .cons colLoopC2 (.cons colEndC2 (.cons rowLoopC2
      (.cons rowEndC2 (.cons visitStmt .nil)))) := rfl

/-- Evaluation context with every input sequence of length n. -/
def c2ctx (n : Nat) : EvalCtx := ⟨fun _ => (n : Int)⟩

/-- All-zero initial environment. -/
def envZ : String → Int := fun _ => 0

/-- Cells of column c of the triangular matrix, in the order the traversal
reaches them: (c, c), (c-1, c), ..., (0, c). -/
def colChunk (c : Nat) : List (Int × Int) :=
  (List.range (c + 1)).map (fun (k : Nat) => ((c : Int) - (k : Int), (c : Int)))

/-- All cells 0 ≤ i ≤ j ≤ n, grouped by column in traversal order. -/
def allCells (n : Nat) : List (Int × Int) :=
  ((List.range (n + 1)).map colChunk).flatten

/-- Cells of columns j, j+1, ..., n-1 in traversal order. -/
def colsFrom (j n : Nat) : List (Int × Int) :=
  ((List.range' j (n - j)).map colChunk).flatten

theorem colChunk_snoc (c : Nat) :
    colChunk c =
      (List.range c).map
        (fun (k : Nat) => ((c : Int) - (k : Int), (c : Int))) ++
        [((0 : Int), (c : Int))] := by
  rw [colChunk, List.range_succ, List.map_append]
  simp

theorem colsFrom_cons {j n : Nat} (h : j < n) :
    colsFrom j n = colChunk j ++ colsFrom (j + 1) n := by
  have h1 : n - j = (n - (j + 1)) + 1 := by omega
  rw [colsFrom, h1, List.range'_succ, List.map_cons, List.flatten_cons]
  rfl

theorem colsFrom_self (n : Nat) : colsFrom n n = [] := by
  simp [colsFrom]

theorem allCells_split (n : Nat) :
    allCells n = colsFrom 0 n ++ colChunk n := by
  rw [allCells, colsFrom, Nat.sub_zero, ← List.range_eq_range',
    List.range_succ, List.map_append, List.flatten_append]
  simp

/-- Trace of the row loop starting at row index s over column j:
the cells (s - 1, j), (s - 2, j), ..., (1, j). -/
def rowCells (s : Int) (j : Int) : List (Int × Int) :=
  (List.range (s - 1).toNat).map
    (fun (k : Nat) => (s - 1 - (k : Int), j))

/-- Execution of the row loop of the traversal: starting at row index s, it
visits the cells (s - 1, j), ..., (1, j) and leaves the row index at 1. -/
theorem rowIter_run (n fuel : Nat) : ∀ (b : Nat) (s : Int) (σ : St),
    σ.env "t_0_i" = s → 1 ≤ s → (s - 1).toNat ≤ b →
    execIter (c2ctx n) fuel "t_0_i" (.gt (.vacc "t_0_i") (.const 1))
        (some ("t_0_i", true, .const (-1))) (.cons visitStmt .nil) b σ =
      { env := upd σ.env "t_0_i" 1,
        visits := σ.visits ++ rowCells s (σ.env "t_0_j") } := by
  intro b
  induction b with
  | zero =>
    intro s σ hi hs hb
    have hs1 : s = 1 := by omega
    rw [execIter_zero]
    have hcell : rowCells s (σ.env "t_0_j") = [] := by
      simp [rowCells, hs1]
    have henv : upd σ.env "t_0_i" 1 = σ.env := by
      rw [← hs1, ← hi]
      exact upd_self σ.env "t_0_i"
    rw [hcell, henv]
    simp
  | succ b ih =>
    intro s σ hi hs hb
    by_cases h1 : s = 1
    · rw [execIter_succ]
      have hc : evalE (c2ctx n) σ.env
          (.gt (.vacc "t_0_i") (.const 1)) = 0 := by
        simp [evalE, hi, h1]
      rw [hc]
      have hcell : rowCells s (σ.env "t_0_j") = [] := by
        simp [rowCells, h1]
      have henv : upd σ.env "t_0_i" 1 = σ.env := by
        rw [← h1, ← hi]
        exact upd_self σ.env "t_0_i"
      rw [hcell, henv]
      simp
    · have hs2 : 2 ≤ s := by omega
      have hij : ¬ "t_0_j" = "t_0_i" := by decide
      have hc : evalE (c2ctx n) σ.env
          (.gt (.vacc "t_0_i") (.const 1)) = 1 := by
        have h : (1 : Int) < σ.env "t_0_i" := by omega
        simp [evalE, h]
      have hbody : execL (c2ctx n) fuel σ (.cons visitStmt .nil) =
          { σ with visits := σ.visits ++ [(s - 1, σ.env "t_0_j")] } := by
        rw [execL_cons, execL_nil]
        rw [show visitStmt = Stmt.fnCall "visit"
          [.minus (.vacc "t_0_i") (.const 1), .vacc "t_0_j"] false from rfl]
        rw [execS_fnCall, if_pos rfl]
        simp [evalE, nthArg, hi]
      have hstate : applyInc (c2ctx n) "t_0_i"
          (some ("t_0_i", true, .const (-1)))
          { σ with visits := σ.visits ++ [(s - 1, σ.env "t_0_j")] } =
          { env := upd σ.env "t_0_i" (s - 1),
            visits := σ.visits ++ [(s - 1, σ.env "t_0_j")] } := by
        rw [applyInc]
        simp [evalE, hi]
        rw [show s + -1 = s - 1 from rfl]
      set σ2 : St := { env := upd σ.env "t_0_i" (s - 1), visits := σ.visits ++ [(s - 1, σ.env "t_0_j")] } with hσ2
      have h2i : σ2.env "t_0_i" = s - 1 := by
        rw [hσ2]
        exact upd_same σ.env "t_0_i" (s - 1)
      have h2j : σ2.env "t_0_j" = σ.env "t_0_j" := by
        rw [hσ2]
        exact upd_ne σ.env hij (s - 1)
      rw [execIter_succ, hc]
      rw [if_pos (by norm_num : ¬ (1 : Int) = 0)]
      rw [hbody, hstate]
      rw [ih (s - 1) σ2 h2i (by omega) (by omega)]
      rw [h2j]
      have henv : upd σ2.env "t_0_i" 1 = upd σ.env "t_0_i" 1 := by
        rw [hσ2]
        exact upd_upd_same σ.env "t_0_i" _ 1
      rw [henv]
      have hvis : σ2.visits = σ.visits ++ [(s - 1, σ.env "t_0_j")] := by
        rw [hσ2]
      rw [hvis]
      have hcells : rowCells s (σ.env "t_0_j") =
          (s - 1, σ.env "t_0_j") :: rowCells (s - 1) (σ.env "t_0_j") := by
        rw [rowCells, rowCells]
        have hrng : (s - 1).toNat = (s - 1 - 1).toNat + 1 := by omega
        rw [hrng, List.range_succ_eq_map, List.map_cons, List.map_map]
        have hfn : ((fun (k : Nat) => (s - 1 - (k : Int), σ.env "t_0_j")) ∘
            Nat.succ) =
            (fun (k : Nat) => (s - 1 - 1 - (k : Int), σ.env "t_0_j")) := by
          funext k
          simp only [Function.comp]
          have harg : s - 1 - ((k + 1 : Nat) : Int) = s - 1 - 1 - (k : Int) := by
            push_cast
            ring
          rw [show ((Nat.succ k : Nat) : Int) = ((k + 1 : Nat) : Int) from rfl,
            harg]
        rw [hfn]
        simp
      rw [hcells]
      simp

theorem rowCells_nat (j : Nat) :
    rowCells ((j : Int) + 1) (j : Int) =
      (List.range j).map (fun (k : Nat) => ((j : Int) - (k : Int), (j : Int))) := by
  have h1 : (j : Int) + 1 - 1 = (j : Int) := by ring
  rw [rowCells, h1, Int.toNat_natCast]

/-- Execution of the body of the column loop over column j: the row loop
covers the cells (j, j) … (1, j), the end-state declaration resets the row
index to 1, and the quadrant-B marker records (0, j); together exactly
column j of the triangle. -/
theorem colBody_run (n fuel : Nat) (j : Nat) (σ : St)
    (hj : σ.env "t_0_j" = (j : Int)) (hjf : j ≤ fuel) :
    execL (c2ctx n) fuel σ colBodyC2 =
      { env := upd σ.env "t_0_i" 1, visits := σ.visits ++ colChunk j } := by
  have hij : ¬ "t_0_j" = "t_0_i" := by decide
  rw [show colBodyC2 =
    Stmts.cons rowLoopC2 (.cons rowEndC2 (.cons visitStmt .nil)) from rfl]
  rw [execL_cons]
  have h1 : execS (c2ctx n) fuel σ rowLoopC2 =
      { env := upd σ.env "t_0_i" 1,
        visits := σ.visits ++ rowCells ((j : Int) + 1) (j : Int) } := by
    rw [show rowLoopC2 = Stmt.forLoop Ty.size "t_0_i"
      (.plus (.vacc "t_0_j") (.const 1)) (.gt (.vacc "t_0_i") (.const 1))
      (some ("t_0_i", true, .const (-1))) (.cons visitStmt .nil) from rfl]
    rw [execS_forLoop]
    have hstart : evalE (c2ctx n) σ.env
        (.plus (.vacc "t_0_j") (.const 1)) = (j : Int) + 1 := by
      simp [evalE, hj]
    rw [hstart]
    rw [rowIter_run n fuel fuel ((j : Int) + 1)
      { σ with env := upd σ.env "t_0_i" ((j : Int) + 1) }
      (upd_same σ.env "t_0_i" ((j : Int) + 1)) (by omega) (by omega)]
    dsimp only
    rw [upd_upd_same, upd_ne σ.env hij, hj]
  rw [h1, execL_cons]
  rw [show rowEndC2 = Stmt.varDecl Ty.size "t_0_i" (.const 1) from rfl,
    execS_varDecl]
  dsimp only
  rw [show evalE (c2ctx n) (upd σ.env "t_0_i" 1) (.const 1) = 1 from rfl]
  rw [upd_upd_same]
  rw [execL_cons]
  rw [show visitStmt = Stmt.fnCall "visit"
    [.minus (.vacc "t_0_i") (.const 1), .vacc "t_0_j"] false from rfl]
  rw [execS_fnCall, if_pos rfl, execL_nil]
  dsimp only
  have hv1 : evalE (c2ctx n) (upd σ.env "t_0_i" 1)
      (nthArg [.minus (.vacc "t_0_i") (.const 1), .vacc "t_0_j"] 0) = 0 := by
    simp [evalE, nthArg]
  have hv2 : evalE (c2ctx n) (upd σ.env "t_0_i" 1)
      (nthArg [.minus (.vacc "t_0_i") (.const 1), .vacc "t_0_j"] 1) =
      (j : Int) := by
    simp [evalE, nthArg, upd_ne σ.env hij, hj]
  rw [hv1, hv2, rowCells_nat]
  rw [List.append_assoc, ← colChunk_snoc]

theorem applyInc_none (ctx : EvalCtx) (v : String) (σ : St) :
    applyInc ctx v none σ = { σ with env := upd σ.env v (σ.env v + 1) } := rfl

/-- Execution of the column loop from column j: it walks the columns j,
j+1, ..., n-1, visiting each one's cells in order, and leaves the column
index at n (and the row index at 1 whenever at least one column was
processed). -/
theorem colIter_run (n fuel : Nat) : ∀ (b j : Nat) (σ : St),
    σ.env "t_0_j" = (j : Int) → j ≤ n → n ≤ fuel → n - j ≤ b →
    execIter (c2ctx n) fuel "t_0_j" (.lt (.vacc "t_0_j") (.sizeCall "t_0_seq"))
        none colBodyC2 b σ =
      { env := (if j = n then σ.env else upd (upd σ.env "t_0_i" 1) "t_0_j" (n : Int)),
        visits := σ.visits ++ colsFrom j n } := by
  intro b
  induction b with
  | zero =>
    intro j σ hj hjn hfuel hb
    have hjeq : j = n := by omega
    rw [execIter_zero, if_pos hjeq, hjeq, colsFrom_self]
    simp
  | succ b ih =>
    intro j σ hj hjn hfuel hb
    have hij : ¬ "t_0_j" = "t_0_i" := by decide
    by_cases hjeq : j = n
    · have hc : evalE (c2ctx n) σ.env
          (.lt (.vacc "t_0_j") (.sizeCall "t_0_seq")) = 0 := by
        simp [evalE, c2ctx, hj, hjeq]
      rw [execIter_succ, hc, if_neg (by simp), if_pos hjeq, hjeq, colsFrom_self]
      simp
    · have hjlt : j < n := by omega
      have hc : evalE (c2ctx n) σ.env
          (.lt (.vacc "t_0_j") (.sizeCall "t_0_seq")) = 1 := by
        have h : σ.env "t_0_j" < (n : Int) := by
          rw [hj]
          exact_mod_cast hjlt
        simp [evalE, c2ctx, h]
      rw [execIter_succ, hc, if_pos (by norm_num : ¬ (1 : Int) = 0)]
      rw [colBody_run n fuel j σ hj (by omega)]
      rw [applyInc_none]
      dsimp only
      have hjj : upd σ.env "t_0_i" 1 "t_0_j" = (j : Int) := by
        rw [upd_ne σ.env hij, hj]
      rw [hjj]
      set σ2 : St := { env := upd (upd σ.env "t_0_i" 1) "t_0_j" ((j : Int) + 1), visits := σ.visits ++ colChunk j } with hσ2
      have h2j : σ2.env "t_0_j" = ((j + 1 : Nat) : Int) := by
        rw [hσ2]
        push_cast
        exact upd_same (upd σ.env "t_0_i" 1) "t_0_j" ((j : Int) + 1)
      rw [ih (j + 1) σ2 h2j (by omega) hfuel (by omega)]
      rw [if_neg hjeq]
      have hvis : σ2.visits ++ colsFrom (j + 1) n = σ.visits ++ colsFrom j n := by
        rw [hσ2]
        dsimp only
        rw [colsFrom_cons hjlt, List.append_assoc]
      by_cases hj1 : j + 1 = n
      · rw [if_pos hj1, hvis, hσ2]
        dsimp only
        have hcast : ((j : Int) + 1) = (n : Int) := by exact_mod_cast hj1
        rw [hcast]
      · rw [if_neg hj1, hvis]
        have henv : upd (upd σ2.env "t_0_i" 1) "t_0_j" (n : Int) =
            upd (upd σ.env "t_0_i" 1) "t_0_j" (n : Int) := by
          rw [hσ2]
          dsimp only
          rw [upd_comm _ hij, upd_upd_same, upd_upd_same]
        rw [henv]

/-- Complete run of the single-track single-thread traversal: the recorded
cells are exactly the columns 0 … n-1 (quadrants A and B) followed by
column n (quadrants C and D). -/
theorem c2_visits (n fuel : Nat) (hf : n + 1 ≤ fuel) :
    (execL (c2ctx n) fuel { env := envZ, visits := [] } c2stmts).visits =
      allCells n := by
  have hfn : n ≤ fuel := by omega
  rw [c2stmts_eq, execL_cons, execL_cons]
  have h1 : execS (c2ctx n) fuel { env := envZ, visits := [] } colLoopC2 =
      { env := (if 0 = n then upd envZ "t_0_j" ((0 : Nat) : Int) else upd (upd (upd envZ "t_0_j" ((0 : Nat) : Int)) "t_0_i" 1) "t_0_j" (n : Int)),
        visits := colsFrom 0 n } := by
    rw [show colLoopC2 = Stmt.forLoop Ty.size "t_0_j" (.const 0)
      (.lt (.vacc "t_0_j") (.sizeCall "t_0_seq")) none colBodyC2 from rfl]
    rw [execS_forLoop]
    rw [show evalE (c2ctx n) (envZ) (.const 0) = ((0 : Nat) : Int) by simp [evalE]]
    rw [colIter_run n fuel fuel 0
      { env := upd envZ "t_0_j" ((0 : Nat) : Int), visits := [] }
      (upd_same envZ "t_0_j" ((0 : Nat) : Int)) (by omega) hfn (by omega)]
    dsimp only
    simp
  rw [h1]
  set E1 : String → Int := (if 0 = n then upd envZ "t_0_j" ((0 : Nat) : Int) else upd (upd (upd envZ "t_0_j" ((0 : Nat) : Int)) "t_0_i" 1) "t_0_j" (n : Int)) with hE1
  have h2 : execS (c2ctx n) fuel { env := E1, visits := colsFrom 0 n }
      colEndC2 = { env := upd E1 "t_0_j" (n : Int), visits := colsFrom 0 n } := by
    rw [show colEndC2 = Stmt.varDecl Ty.size "t_0_j" (.sizeCall "t_0_seq")
      from rfl, execS_varDecl]
    rfl
  rw [h2]
  have h3 : execL (c2ctx n) fuel
      { env := upd E1 "t_0_j" (n : Int), visits := colsFrom 0 n } colBodyC2 =
      { env := upd (upd E1 "t_0_j" (n : Int)) "t_0_i" 1, visits := colsFrom 0 n ++ colChunk n } :=
    colBody_run n fuel n
      { env := upd E1 "t_0_j" (n : Int), visits := colsFrom 0 n }
      (upd_same E1 "t_0_j" (n : Int)) hfn
  rw [show Stmts.cons rowLoopC2 (Stmts.cons rowEndC2
    (Stmts.cons visitStmt Stmts.nil)) = colBodyC2 from rfl]
  rw [h3]
  rw [allCells_split]

theorem colChunk_nodup (c : Nat) : (colChunk c).Nodup := by
  rw [colChunk]
  apply List.Nodup.map
  · intro a b hab
    have h := congrArg Prod.fst hab
    simp only at h
    omega
  · exact List.nodup_range (c + 1)

theorem mem_colChunk {c : Nat} {x y : Int} :
    ((x, y) ∈ colChunk c) ↔ y = (c : Int) ∧ 0 ≤ x ∧ x ≤ (c : Int) := by
  rw [colChunk]
  simp only [List.mem_map, List.mem_range, Prod.mk.injEq]
  constructor
  · rintro ⟨k, hk, h1, h2⟩
    exact ⟨h2.symm, by omega, by omega⟩
  · rintro ⟨h2, h0, h1⟩
    exact ⟨((c : Int) - x).toNat, by omega, by omega, h2.symm⟩

theorem allCells_nodup (n : Nat) : (allCells n).Nodup := by
  rw [allCells, List.nodup_flatten]
  constructor
  · intro l hl
    simp only [List.mem_map] at hl
    obtain ⟨c, _, rfl⟩ := hl
    exact colChunk_nodup c
  · rw [List.pairwise_map]
    refine List.Pairwise.imp ?_ (List.pairwise_lt_range (n + 1))
    intro a b hab
    intro p hpa hpb
    obtain ⟨x, y⟩ := p
    have h1 := (mem_colChunk.mp hpa).1
    have h2 := (mem_colChunk.mp hpb).1
    rw [h1] at h2
    have hab2 : a = b := by exact_mod_cast h2
    omega

theorem mem_allCells {n : Nat} {x y : Int} :
    ((x, y) ∈ allCells n) ↔ 0 ≤ x ∧ x ≤ y ∧ y ≤ (n : Int) := by
  rw [allCells]
  simp only [List.mem_flatten, List.mem_map]
  constructor
  · rintro ⟨l, ⟨c, hc, rfl⟩, hm⟩
    simp only [List.mem_range] at hc
    obtain ⟨h2, h0, h1⟩ := mem_colChunk.mp hm
    refine ⟨h0, by omega, by omega⟩
  · rintro ⟨h0, h1, h2⟩
    refine ⟨colChunk y.toNat, ⟨y.toNat, ?_, rfl⟩, ?_⟩
    · simp only [List.mem_range]
      omega
    · exact mem_colChunk.mpr ⟨by omega, h0, by omega⟩

/-- C2: for any sequence length n ≥ 0 (and enough loop fuel), the
single-thread single-track traversal built by the quadrant builder —
quadrants A (interior triangle), B (top row), C (last column) and D
(top-right corner) together — visits each coordinate pair (i, j) with
0 ≤ i ≤ j ≤ n exactly once: the recorded trace counts every in-range pair
once and any other pair zero times. -/
theorem cyk_quadrants_exactly_once (n fuel : Nat) (hf : n + 1 ≤ fuel)
    (i j : Int) :
    @List.count (Int × Int) instBEqOfDecidableEq (i, j)
        (execL (c2ctx n) fuel { env := envZ, visits := [] } c2stmts).visits =
      if 0 ≤ i ∧ i ≤ j ∧ j ≤ (n : Int) then 1 else 0 := by
  rw [c2_visits n fuel hf]
  rw [List.count_eq_of_nodup (allCells_nodup n)]
  simp only [mem_allCells]

theorem cyk_quadrants_exactly_once_witness :
    @List.count (Int × Int) instBEqOfDecidableEq ((1 : Int), (2 : Int))
        (execL (c2ctx 3) 4 { env := envZ, visits := [] } c2stmts).visits =
      if (0 : Int) ≤ 1 ∧ (1 : Int) ≤ 2 ∧ (2 : Int) ≤ ((3 : Nat) : Int)
      then 1 else 0 :=
  cyk_quadrants_exactly_once 3 4 (by omega) 1 2

theorem applyInc_some (ctx : EvalCtx) (v l : String) (isPlus : Bool)
    (rhs : CExpr) (σ : St) :
    applyInc ctx v (some (l, isPlus, rhs)) σ =
      { σ with env := upd σ.env l ((if isPlus then σ.env l else 0) + evalE ctx σ.env rhs) } := rfl

/-- Natural termination of an ascending loop `for (v = s; v < e; ++v)` with
an empty body over a bound that does not depend on v: the loop variable
ends at max s e. -/
theorem ascIter_run (ctx : EvalCtx) (fuel : Nat) (v : String) (e : CExpr)
    (hE : ∀ (env : String → Int) (x : Int),
      evalE ctx (upd env v x) e = evalE ctx env e) :
    ∀ (b : Nat) (σ : St), (evalE ctx σ.env e - σ.env v).toNat ≤ b →
    execIter ctx fuel v (.lt (.vacc v) e) none .nil b σ =
      { σ with env := upd σ.env v (max (σ.env v) (evalE ctx σ.env e)) } := by
  intro b
  induction b with
  | zero =>
    intro σ hb
    rw [execIter_zero]
    have h : max (σ.env v) (evalE ctx σ.env e) = σ.env v := by omega
    rw [h, upd_self]
  | succ b ih =>
    intro σ hb
    rw [execIter_succ]
    by_cases h : σ.env v < evalE ctx σ.env e
    · have hc : evalE ctx σ.env (.lt (.vacc v) e) = 1 := by
        simp [evalE, h]
      rw [hc, if_pos (by norm_num : ¬ (1 : Int) = 0), execL_nil, applyInc_none]
      rw [ih { σ with env := upd σ.env v (σ.env v + 1) } (by rw [hE]; rw [show ({ σ with env := upd σ.env v (σ.env v + 1) } : St).env v = σ.env v + 1 from upd_same σ.env v (σ.env v + 1)]; omega)]
      dsimp only
      rw [hE, upd_same, upd_upd_same]
      have hm : max (σ.env v + 1) (evalE ctx σ.env e) =
          max (σ.env v) (evalE ctx σ.env e) := by omega
      rw [hm]
    · have hc : evalE ctx σ.env (.lt (.vacc v) e) = 0 := by
        simp [evalE, h]
      rw [hc, if_neg (by simp)]
      have hm : max (σ.env v) (evalE ctx σ.env e) = σ.env v := by omega
      rw [hm, upd_self]

/-- Natural termination of a descending loop `for (v = s; v > e; v += -1)`
with an empty body over a bound that does not depend on v: the loop
variable ends at min s e. -/
theorem descIter_run (ctx : EvalCtx) (fuel : Nat) (v : String) (e : CExpr)
    (hE : ∀ (env : String → Int) (x : Int),
      evalE ctx (upd env v x) e = evalE ctx env e) :
    ∀ (b : Nat) (σ : St), (σ.env v - evalE ctx σ.env e).toNat ≤ b →
    execIter ctx fuel v (.gt (.vacc v) e) (some (v, true, .const (-1)))
        .nil b σ =
      { σ with env := upd σ.env v (min (σ.env v) (evalE ctx σ.env e)) } := by
  intro b
  induction b with
  | zero =>
    intro σ hb
    rw [execIter_zero]
    have h : min (σ.env v) (evalE ctx σ.env e) = σ.env v := by omega
    rw [h, upd_self]
  | succ b ih =>
    intro σ hb
    rw [execIter_succ]
    by_cases h : evalE ctx σ.env e < σ.env v
    · have hc : evalE ctx σ.env (.gt (.vacc v) e) = 1 := by
        simp [evalE, h]
      rw [hc, if_pos (by norm_num : ¬ (1 : Int) = 0), execL_nil, applyInc_some]
      rw [if_pos rfl]
      rw [show evalE ctx σ.env (.const (-1)) = -1 from rfl]
      rw [ih { σ with env := upd σ.env v (σ.env v + -1) } (by rw [hE]; rw [show ({ σ with env := upd σ.env v (σ.env v + -1) } : St).env v = σ.env v + -1 from upd_same σ.env v (σ.env v + -1)]; omega)]
      dsimp only
      rw [hE, upd_same, upd_upd_same]
      have hm : min (σ.env v + -1) (evalE ctx σ.env e) =
          min (σ.env v) (evalE ctx σ.env e) := by omega
      rw [hm]
    · have hc : evalE ctx σ.env (.gt (.vacc v) e) = 0 := by
        simp [evalE, h]
      rw [hc, if_neg (by simp)]
      have hm : min (σ.env v) (evalE ctx σ.env e) = σ.env v := by omega
      rw [hm, upd_self]

/-- The row loop of the parallel tile phase (part B of
cyk_traversal_multithread_parallel): start x, end x - tile_size. -/
def rowBloop : CYKloop :=
  get_for_row "t_0_i" (.vacc "x") (.minus (.vacc "x") (.vacc "tile_size"))
    false .OPENMP_PARALLEL

/-- Environment of the tile-phase counterexample: x = 6, tile_size = 2. -/
def envX : String → Int :=
  fun v => if v = "x" then 6 else if v = "tile_size" then 2 else 0

/-- Context with all sequence lengths 0 (irrelevant here). -/
def ctx0 : EvalCtx := ⟨fun _ => 0⟩

/-- C8 counterexample: the tile-phase row loop built by get_for_row (it sits
inside the traversal built by cyk_traversal_multithread_parallel) runs from
x = 6 down to x - tile_size = 4, so one step past its termination the loop
variable holds 4 — but its end-state companion declaration holds the
constant 1, not 4. -/
theorem endstate_counterexample :
    atIdx (bodyOf (atIdx (bodyOf (atIdx (bodyOf (atIdx
        (cyk_traversal_multithread_parallel ast1 "t_0_seq" "tile_size"
          "max_tiles_n" false) 1)) 1)) 1)) 0 = rowBloop.loop ∧
    (execS ctx0 10 { env := envX, visits := [] } rowBloop.loop).env "t_0_i" = 4 ∧
    evalE ctx0 envX (declRhs rowBloop.endState) = 1 ∧ ¬ (4 : Int) = 1 := by
  have hE : ∀ (env : String → Int) (x : Int),
      evalE ctx0 (upd env "t_0_i" x)
        (.minus (.vacc "x") (.vacc "tile_size")) =
      evalE ctx0 env (.minus (.vacc "x") (.vacc "tile_size")) := by
    intro env x
    simp [evalE, upd]
  refine ⟨rfl, ?_, rfl, by norm_num⟩
  rw [show rowBloop.loop = Stmt.forLoop Ty.int "t_0_i" (.vacc "x")
    (.gt (.vacc "t_0_i") (.minus (.vacc "x") (.vacc "tile_size")))
    (some ("t_0_i", true, .const (-1))) .nil from rfl]
  rw [execS_forLoop]
  rw [show evalE ctx0 envX (.vacc "x") = 6 from rfl]
  rw [descIter_run ctx0 10 "t_0_i" (.minus (.vacc "x") (.vacc "tile_size"))
    hE 10 { env := upd envX "t_0_i" 6, visits := [] } (by decide)]
  dsimp only
  rw [upd_same]
  rw [show evalE ctx0 (upd envX "t_0_i" 6)
    (.minus (.vacc "x") (.vacc "tile_size")) = 4 by decide]
  rw [upd_same]
  decide

/-- C8 (amended): every loop/end-state pair built by get_for_column and
get_for_row names the same variable in every mode; the end-state value of a
column loop is the loop's end expression, which is indeed the value the
loop variable holds one step past its natural termination (when start ≤
end and the end does not depend on the loop variable); a row loop's
end-state value is always the constant 1, which equals the variable's
post-termination value in the single-thread uses (where the loop descends
to the bound 1 from a start ≥ 1), but not in the parallel tile phase (see
the counterexample, whose companions the generator in fact discards). -/
theorem endstate_amended :
    (∀ (rb : String) (start e : CExpr) (chk : Bool) (mode : CYKmode),
      declName (get_for_column rb start e chk mode).loop =
        declName (get_for_column rb start e chk mode).endState ∧
      declName (get_for_row rb start e chk mode).loop =
        declName (get_for_row rb start e chk mode).endState) ∧
    (∀ (rb : String) (start e : CExpr) (mode : CYKmode) (ctx : EvalCtx)
        (fuel : Nat) (σ : St),
      (∀ (env : String → Int) (x : Int),
        evalE ctx (upd env rb x) e = evalE ctx env e) →
      evalE ctx σ.env start ≤ evalE ctx σ.env e →
      (evalE ctx σ.env e - evalE ctx σ.env start).toNat ≤ fuel →
      (execS ctx fuel σ (get_for_column rb start e false mode).loop).env rb =
        evalE ctx σ.env (declRhs (get_for_column rb start e false mode).endState)) ∧
    (∀ (rb : String) (start e : CExpr) (mode : CYKmode) (ctx : EvalCtx)
        (fuel : Nat) (σ : St),
      ¬ mode = CYKmode.SINGLETHREAD_OUTSIDE →
      (∀ (env : String → Int) (x : Int),
        evalE ctx (upd env rb x) e = evalE ctx env e) →
      evalE ctx σ.env e = 1 →
      1 ≤ evalE ctx σ.env start →
      (evalE ctx σ.env start - 1).toNat ≤ fuel →
      (execS ctx fuel σ (get_for_row rb start e false mode).loop).env rb =
        evalE ctx σ.env (declRhs (get_for_row rb start e false mode).endState)) := by
  refine ⟨?_, ?_, ?_⟩
  · intro rb start e chk mode
    constructor <;> simp [get_for_column, get_for_row, declName]
  · intro rb start e mode ctx fuel σ hE hle hfuel
    rw [show (get_for_column rb start e false mode).loop =
      Stmt.forLoop (if (false = true ∧ ¬ mode = CYKmode.OPENMP_PARALLEL : Prop) then Ty.external "" else Ty.size) rb start (.lt (.vacc rb) e) none .nil by simp [get_for_column]]
    rw [execS_forLoop]
    rw [ascIter_run ctx fuel rb e hE fuel
      { σ with env := upd σ.env rb (evalE ctx σ.env start) }
      (by rw [hE]; rw [show ({ σ with env := upd σ.env rb (evalE ctx σ.env start) } : St).env rb = evalE ctx σ.env start from upd_same σ.env rb (evalE ctx σ.env start)]; omega)]
    dsimp only
    rw [hE, upd_same, upd_same]
    rw [show declRhs (get_for_column rb start e false mode).endState = e by simp [get_for_column, declRhs]]
    omega
  · intro rb start e mode ctx fuel σ hmode hE he hge hfuel
    rw [show (get_for_row rb start e false mode).loop =
      Stmt.forLoop (if mode = CYKmode.OPENMP_PARALLEL then Ty.int else Ty.size) rb start (.gt (.vacc rb) e) (some (rb, true, .const (-1))) .nil by simp [get_for_row, hmode]]
    rw [execS_forLoop]
    rw [descIter_run ctx fuel rb e hE fuel
      { σ with env := upd σ.env rb (evalE ctx σ.env start) }
      (by rw [hE]; rw [show ({ σ with env := upd σ.env rb (evalE ctx σ.env start) } : St).env rb = evalE ctx σ.env start from upd_same σ.env rb (evalE ctx σ.env start)]; omega)]
    dsimp only
    rw [hE, upd_same, upd_same]
    rw [show declRhs (get_for_row rb start e false mode).endState =
      CExpr.const 1 by simp [get_for_row, declRhs]]
    rw [show evalE ctx σ.env (CExpr.const 1) = 1 from rfl]
    omega

theorem endstate_amended_witness :
    (execS ctx0 10 { env := envZ, visits := [] }
        (get_for_column "t_0_j" (.const 0) (.const 5) false
          .SINGLETHREAD).loop).env "t_0_j" =
      evalE ctx0 envZ (declRhs (get_for_column "t_0_j" (.const 0) (.const 5)
        false .SINGLETHREAD).endState) :=
  endstate_amended.2.1 "t_0_j" (.const 0) (.const 5) .SINGLETHREAD ctx0 10
    { env := envZ, visits := [] } (fun env x => rfl) (by decide) (by decide)
